import Mathlib

/-!
# Verification of the kvcache_cxx_packer build orchestration core (`pack.py`)

This file gives a shallow embedding of the dependency-resolution and build
orchestration logic of `pack.py` and proves the specified properties about it.

Conventions of the embedding:
* Python dicts that preserve insertion order become association lists
  (`List (String × _)`).
* Python sets that are only tested for membership become `List String`
  used as membership structures.
* Side-effecting reads/writes of `os.environ` become an explicit `OsEnv`
  value threaded through the function; `os.path.exists` checks become an
  explicit boolean input; logger warnings become an accumulated list of
  warning strings carried in the traversal state.
* The unbounded Python recursion of `visit` is driven by an explicit fuel
  argument; a separate theorem (`resolveRes_ne_noFuel`) shows the fuel
  chosen by `resolve_dependencies` can never run out, so the fuel-exhaustion branch of the embedding is unreachable and the embedding is faithful.
-/

namespace Pack

/-! ## String helpers (kernel-reducible replacements for library string ops) -/

/-- Prefix test on character lists (used to express the Python substring operator `in`). -/
def chPre : List Char → List Char → Bool
  | [], _ => true
  | _ :: _, [] => false
  | a :: as, b :: bs => a == b && chPre as bs

/-- Substring test on character lists: does `needle` occur inside `hay`? -/
def chSub (needle : List Char) : List Char → Bool
  | [] => chPre needle []
  | c :: t => chPre needle (c :: t) || chSub needle t

/-- The Python `needle in hay` substring test on strings. -/
def strContains (hay needle : String) : Bool :=
  chSub needle.data hay.data

/-- The Python `s.split(sep)` for a one-character separator, on char lists.
Keeps empty segments, exactly like Python `str.split` with an explicit
separator. -/
def splitOnChar (sep : Char) : List Char → List (List Char)
  | [] => [[]]
  | c :: t =>
    let r := splitOnChar sep t
    if c == sep then [] :: r
    else
      match r with
      | [] => [[c]]
      | h :: t' => (c :: h) :: t'

/-- The Python `str.lower` restricted to the ASCII range (all names appearing
in the registry are ASCII, where `Char.toLower` agrees with Python). -/
def py_lower (s : String) : String :=
  ⟨s.data.map Char.toLower⟩

/-! ## Data model: package configs and the registry (`PACKS`) -/

/-- One entry of the `"define"` list of a config: either a two-element
`[key, value]` list or a bare string, the two shapes
`generate_cmake_args` distinguishes with `isinstance`. -/
inductive DefineEntry
  | kv (key value : String)
  | flag (s : String)
deriving DecidableEq, Repr

/-- A package configuration: the dict value of one `PACKS` entry.  Fields
mirror the keys read by `pack.py` (`branch`, `"c++"` (here `cpp`),
`build_type`, `dependencies`, `define`); absent keys are `none` / `[]`,
matching the `config.get(..., default)` accesses in the source. -/
structure Config where
  branch : Option String := none
  cpp : Option Nat := none
  build_type : Option String := none
  dependencies : List String := []
  define : List DefineEntry := []
deriving DecidableEq, Repr

instance : Inhabited Config := ⟨{}⟩

/-- The registry: `PACKS`, a dict from repository URL to config, modelled
as an insertion-ordered association list. -/
abbrev Registry := List (String × Config)

/-- `Builder.get_package_name`: `url.split("/")[-1]`. -/
def get_package_name (url : String) : String :=
  ⟨(splitOnChar '/' url.data).getLastD []⟩

/-- The registry keys (URLs), in insertion order. -/
def keys (pkgs : Registry) : List String :=
  pkgs.map Prod.fst

/-- `packages.get(url, {})`: the config stored for `url`, or the empty
config if the URL is not registered. -/
def getConfig (pkgs : Registry) (url : String) : Config :=
  match pkgs.find? (fun p => p.1 == url) with
  | some p => p.2
  | none => {}

/-- The inner lookup of `resolve_dependencies.visit`: the first registry
URL whose derived package name equals `dep_name`, if any. -/
def findDepUrl (pkgs : Registry) (dep_name : String) : Option String :=
  (keys pkgs).find? (fun pkg_url => get_package_name pkg_url == dep_name)

/-- The warning logged for a dependency name that matches no registry
entry: `f"Dependency {dep_name} not found for {self.get_package_name(url)}"`. -/
def depWarnMsg (dep_name url : String) : String :=
  "Dependency " ++ dep_name ++ " not found for " ++ get_package_name url

/-- The cycle error message:
`f"Circular dependency detected involving {url}"`. -/
def cycleMsg (url : String) : String :=
  "Circular dependency detected involving " ++ url

/-- The dependency edge relation of the registry: `depEdge pkgs a b` holds
when package `a` declares a dependency name that `visit` resolves to the
registry URL `b` (so `b` must be built before `a`). -/
def depEdge (pkgs : Registry) (a b : String) : Prop :=
  ∃ d ∈ (getConfig pkgs a).dependencies, findDepUrl pkgs d = some b

instance (pkgs : Registry) (a b : String) : Decidable (depEdge pkgs a b) := by
  unfold depEdge; infer_instance

/-! ## The resolver: `Builder.resolve_dependencies` -/

/-- The mutable state of `resolve_dependencies`: the `visited` and
`temp_visited` sets, the `result` list, plus the warnings the logger
would have emitted. -/
structure RSt where
  visited : List String
  temp : List String
  result : List String
  warns : List String
deriving DecidableEq, Repr

/-- Result of one (sub)traversal: normal completion with an updated state,
the `ValueError` raised on a cycle (carrying the URL at which the cycle
was detected), or fuel exhaustion (proved unreachable below). -/
inductive VRes
  | ok (s : RSt)
  | cyc (url : String)
  | noFuel
deriving DecidableEq, Repr

/-- The `for dep_name in dependencies` loop body of `visit`, parametric in
the recursive visitor `visitF` (instantiated with `visit` at one less
fuel).  An unresolved name appends the logged warning and drops the edge;
a raised error propagates out of the loop. -/
def visitDeps (pkgs : Registry) (visitF : String → RSt → VRes) (url : String) :
    List String → RSt → VRes
  | [], s => .ok s
  | dep_name :: rest, s =>
    match findDepUrl pkgs dep_name with
    | some dep_url =>
      match visitF dep_url s with
      | .ok s' => visitDeps pkgs visitF url rest s'
      | e => e
    | none =>
      visitDeps pkgs visitF url rest
        { s with warns := s.warns ++ [depWarnMsg dep_name url] }

/-- `resolve_dependencies.visit`, with explicit fuel driving the recursion.
Checks `temp_visited` (cycle), then `visited` (already done), then marks
`url` in progress, visits the declared dependencies, and finally moves
`url` from in-progress to done, appending it to the result. -/
def visit (pkgs : Registry) : Nat → String → RSt → VRes
  | 0, _, _ => .noFuel
  | fuel + 1, url, s =>
    if url ∈ s.temp then .cyc url
    else if url ∈ s.visited then .ok s
    else
      match visitDeps pkgs (fun u st => visit pkgs fuel u st) url
          (getConfig pkgs url).dependencies { s with temp := url :: s.temp } with
      | .ok s2 =>
        .ok { s2 with
              temp := s2.temp.erase url
              visited := url :: s2.visited
              result := s2.result ++ [url] }
      | e => e

/-- The top-level `for url in packages: visit(url)` loop. -/
def visitAll (pkgs : Registry) (fuel : Nat) : List String → RSt → VRes
  | [], s => .ok s
  | url :: rest, s =>
    match visit pkgs fuel url s with
    | .ok s' => visitAll pkgs fuel rest s'
    | e => e

/-- The whole run of `resolve_dependencies` on a registry, starting from
empty state.  The fuel `(keys pkgs).length + 1` is shown sufficient below. -/
def resolveRes (pkgs : Registry) : VRes :=
  visitAll pkgs ((keys pkgs).length + 1) (keys pkgs) ⟨[], [], [], []⟩

/-- `Builder.resolve_dependencies`: returns the ordered URL list (together
with the warnings logged along the way), or the `ValueError` message raised
on a cycle. -/
def resolve_dependencies (pkgs : Registry) : Except String (List String × List String) :=
  match resolveRes pkgs with
  | .ok s => .ok (s.result, s.warns)
  | .cyc url => .error (cycleMsg url)
  | .noFuel => .error "out of fuel"

/-! ## The environment propagator: `Builder.generate_cmake_args` -/

/-- The slice of mutable process context that `generate_cmake_args` reads
or writes: the `CC`, `CXX` and `PKG_CONFIG_PATH` entries of `os.environ`
(absent entries are `none`). -/
structure OsEnv where
  CC : Option String := none
  CXX : Option String := none
  PKG_CONFIG_PATH : Option String := none
deriving DecidableEq, Repr

/-- The Python `str(...)` rendering of one `define` entry, as consumed by
the check `any("BUILD_TESTING" in str(define) for define in defines)`:
a two-element list prints as `[\x27k\x27, \x27v\x27]`, a bare string
prints as itself. -/
def pyStr : DefineEntry → String
  | .kv k v => "[\x27" ++ k ++ "\x27, \x27" ++ v ++ "\x27]"
  | .flag s => s

/-- Does the Python `str(define)` contain the substring `"BUILD_TESTING"`? -/
def mentionsBuildTesting (d : DefineEntry) : Bool :=
  strContains (pyStr d) "BUILD_TESTING"

/-- `Builder.generate_cmake_args`, returning the accumulated list of
CMake arguments (the source joins them with a backslash-newline separator,
see `generate_cmake_args`) together with the process environment after the
call.  The extra inputs are exactly the mutable context the Python method
touches: the install prefix and built-packages attributes of the builder,
`os.environ`, and whether the pkg-config directory under the install
prefix exists on disk. -/
def generate_cmake_args_list (install_dir : String) (built_packages : List String)
    (env : OsEnv) (pkgconfig_exists : Bool) (config : Config) :
    List String × OsEnv :=
  let args := (match env.CC with
    | some cc => ["-DCMAKE_C_COMPILER=" ++ cc]
    | none => []) ++
    (match env.CXX with
    | some cxx => ["-DCMAKE_CXX_COMPILER=" ++ cxx]
    | none => [])
  let build_type := config.build_type.getD "Release"
  let args := args ++ ["-DCMAKE_BUILD_TYPE=" ++ build_type,
                       "-DCMAKE_INSTALL_PREFIX=" ++ install_dir]
  let cpp_std := config.cpp
  let dependencies := config.dependencies
  let step :=
    if dependencies.isEmpty then
      (args ++ (match cpp_std with
        | some std => ["-DCMAKE_CXX_STANDARD=" ++ toString std,
                       "-DCMAKE_CXX_STANDARD_REQUIRED=ON"]
        | none => []), env)
    else
      let cxx_flags := "-I" ++ install_dir ++ "/include"
      let linker_flags := "-L" ++ install_dir ++ "/lib"
      let cxx_flags := match cpp_std with
        | some std => "-std=c++" ++ toString std ++ " " ++ cxx_flags
        | none => cxx_flags
      let args := args ++ ["-DCMAKE_PREFIX_PATH=" ++ install_dir,
        "-DCMAKE_CXX_FLAGS=\x27" ++ cxx_flags ++ "\x27",
        "-DCMAKE_EXE_LINKER_FLAGS=\x27" ++ linker_flags ++ "\x27",
        "-DCMAKE_SHARED_LINKER_FLAGS=\x27" ++ linker_flags ++ "\x27"]
      let args := args ++ dependencies.flatMap (fun dep_name =>
        if dep_name ∈ built_packages then
          ["-D" ++ dep_name ++ "_DIR=" ++ install_dir,
           "-D" ++ dep_name ++ "_ROOT=" ++ install_dir,
           "-D" ++ py_lower dep_name ++ "_DIR=" ++ install_dir,
           "-D" ++ py_lower dep_name ++ "_ROOT=" ++ install_dir]
        else [])
      let pkgconfig_path := install_dir ++ "/lib/pkgconfig"
      let env2 :=
        if pkgconfig_exists then
          let current_pkg_config := env.PKG_CONFIG_PATH.getD ""
          if strContains current_pkg_config pkgconfig_path then env
          else if current_pkg_config.isEmpty then
            { env with PKG_CONFIG_PATH := some pkgconfig_path }
          else
            { env with
                PKG_CONFIG_PATH := some (current_pkg_config ++ ":" ++ pkgconfig_path) }
        else env
      (args, env2)
  let args := step.1 ++ config.define.flatMap (fun d =>
    match d with
    | .kv key value => ["-D" ++ key ++ "=" ++ value]
    | .flag s => ["-D" ++ s])
  let args := if config.define.any mentionsBuildTesting then args
              else args ++ ["-DBUILD_TESTING=OFF"]
  (args, step.2)

/-- The Python `" \\\n    ".join(args)` of the argument list. -/
def joinArgs : List String → String
  | [] => ""
  | [a] => a
  | a :: rest => a ++ " \\\n    " ++ joinArgs rest

/-- `Builder.generate_cmake_args` as the source returns it: the joined
argument string, paired with the process environment after the call. -/
def generate_cmake_args (install_dir : String) (built_packages : List String)
    (env : OsEnv) (pkgconfig_exists : Bool) (config : Config) : String × OsEnv :=
  let r := generate_cmake_args_list install_dir built_packages env pkgconfig_exists config
  (joinArgs r.1, r.2)

/-! ### Structured decomposition of the argument list (for the theorems) -/

/-- The compiler-override arguments emitted when `CC` / `CXX` are set. -/
def compilerArgs (env : OsEnv) : List String :=
  (match env.CC with
    | some cc => ["-DCMAKE_C_COMPILER=" ++ cc]
    | none => []) ++
  (match env.CXX with
    | some cxx => ["-DCMAKE_CXX_COMPILER=" ++ cxx]
    | none => [])

/-- The unconditional build-type and install-prefix arguments. -/
def baseArgs (install_dir : String) (config : Config) : List String :=
  ["-DCMAKE_BUILD_TYPE=" ++ config.build_type.getD "Release",
   "-DCMAKE_INSTALL_PREFIX=" ++ install_dir]

/-- The language-standard arguments used when the config has no
dependencies. -/
def stdArgs (config : Config) : List String :=
  match config.cpp with
  | some std => ["-DCMAKE_CXX_STANDARD=" ++ toString std,
                 "-DCMAKE_CXX_STANDARD_REQUIRED=ON"]
  | none => []

/-- The four discovery hints emitted for one already-built dependency
name; nothing for a dependency that is not in the built set. -/
def depHintArgs (install_dir : String) (built_packages : List String)
    (dep_name : String) : List String :=
  if dep_name ∈ built_packages then
    ["-D" ++ dep_name ++ "_DIR=" ++ install_dir,
     "-D" ++ dep_name ++ "_ROOT=" ++ install_dir,
     "-D" ++ py_lower dep_name ++ "_DIR=" ++ install_dir,
     "-D" ++ py_lower dep_name ++ "_ROOT=" ++ install_dir]
  else []

/-- The search-path flag arguments of the dependency branch. -/
def depFlagArgs (install_dir : String) (config : Config) : List String :=
  ["-DCMAKE_PREFIX_PATH=" ++ install_dir,
   "-DCMAKE_CXX_FLAGS=\x27" ++
     (match config.cpp with
      | some std => "-std=c++" ++ toString std ++ " " ++
          ("-I" ++ install_dir ++ "/include")
      | none => "-I" ++ install_dir ++ "/include") ++ "\x27",
   "-DCMAKE_EXE_LINKER_FLAGS=\x27" ++ ("-L" ++ install_dir ++ "/lib") ++ "\x27",
   "-DCMAKE_SHARED_LINKER_FLAGS=\x27" ++ ("-L" ++ install_dir ++ "/lib") ++ "\x27"]

/-- The whole dependency section: search-path flags followed by the
per-dependency discovery hints. -/
def depSectionArgs (install_dir : String) (built_packages : List String)
    (config : Config) : List String :=
  depFlagArgs install_dir config ++
    config.dependencies.flatMap (depHintArgs install_dir built_packages)

/-- The arguments produced from the declared `define` list. -/
def defineArgs (config : Config) : List String :=
  config.define.flatMap (fun d =>
    match d with
    | .kv key value => ["-D" ++ key ++ "=" ++ value]
    | .flag s => ["-D" ++ s])

/-- The trailing default that disables tests when no declared define
mentions `BUILD_TESTING`. -/
def testingDefaultArgs (config : Config) : List String :=
  if config.define.any mentionsBuildTesting then [] else ["-DBUILD_TESTING=OFF"]

/-- The process environment after a `generate_cmake_args` call, in
structured form. -/
def env_after (install_dir : String) (env : OsEnv) (pkgconfig_exists : Bool)
    (config : Config) : OsEnv :=
  if config.dependencies.isEmpty then env
  else if pkgconfig_exists then
    let pkgconfig_path := install_dir ++ "/lib/pkgconfig"
    let current_pkg_config := env.PKG_CONFIG_PATH.getD ""
    if strContains current_pkg_config pkgconfig_path then env
    else if current_pkg_config.isEmpty then
      { env with PKG_CONFIG_PATH := some pkgconfig_path }
    else
      { env with PKG_CONFIG_PATH := some (current_pkg_config ++ ":" ++ pkgconfig_path) }
  else env

/-! ## The orchestrator: `Builder.build_all_packages` and `main` -/

/-- The per-package record stored in `self.build_results`
(`{"url": ..., "success": ..., "message": ...}`). -/
structure BuildResult where
  url : String
  success : Bool
  message : String
deriving DecidableEq, Repr

/-- The `for url in build_order` loop of `build_all_packages`,
parametric in an outcome oracle abstracting the outside world
(`build_package` returns `(package_name, success, message)`; the oracle
gives the success flag and message for each URL).  On a failure the loop
records the failing entry and `break`s, skipping every later package. -/
def build_loop (outcome : String → Bool × String) :
    List String → List (String × BuildResult)
  | [] => []
  | url :: rest =>
    let r := outcome url
    (get_package_name url, ⟨url, r.1, r.2⟩) ::
      (if r.1 then build_loop outcome rest else [])

/-- `Builder.build_all_packages` (restricted to its orchestration logic):
resolve the order, then run the fail-fast build loop; a resolution
failure is caught, logged and turned into an empty result dict. -/
def build_all_packages (pkgs : Registry) (outcome : String → Bool × String) :
    List (String × BuildResult) :=
  match resolve_dependencies pkgs with
  | .ok (build_order, _) => build_loop outcome build_order
  | .error _ => []

/-- `sum(1 for r in results.values() if r["success"])`. -/
def successCount (results : List (String × BuildResult)) : Nat :=
  (results.filter (fun p => p.2.success)).length

/-- The number of failed entries in a result list. -/
def failCount (results : List (String × BuildResult)) : Nat :=
  (results.filter (fun p => !p.2.success)).length

/-- The exit status computed by `main`: `sys.exit(0)` when
`successful == total` with `total = len(results)`, else `sys.exit(1)`. -/
def main_exit (pkgs : Registry) (outcome : String → Bool × String) : Nat :=
  let results := build_all_packages pkgs outcome
  if successCount results == results.length then 0 else 1

/-! ## The report generator: `Builder.generate_report` -/

/-- A JSON scalar as it appears in the structured report. -/
inductive JVal
  | str (s : String)
  | bool (b : Bool)
deriving DecidableEq, Repr

/-- The structured document `json.dump(self.build_results, f)` writes: one
object per attempted package, keyed by package name in attempt order, with
the fields `url`, `success` and `message` taken verbatim from the result. -/
def json_report (results : List (String × BuildResult)) :
    List (String × List (String × JVal)) :=
  results.map (fun p =>
    (p.1, [("url", .str p.2.url),
           ("success", .bool p.2.success),
           ("message", .str p.2.message)]))

/-- The chunks written for one package in the text report. -/
def report_entry_lines (package : String) (result : BuildResult) : List String :=
  [package ++ ": " ++ (if result.success then "SUCCESS" else "FAILED") ++ "\n",
   "  URL: " ++ result.url ++ "\n",
   "  Message: " ++ result.message ++ "\n\n"]

/-- The body loop of the text report: emits the per-package chunks in
order while counting successes and failures. -/
def text_report_loop : List (String × BuildResult) → List String × Nat × Nat
  | [] => ([], 0, 0)
  | p :: rest =>
    let tail := text_report_loop rest
    (report_entry_lines p.1 p.2 ++ tail.1,
     (if p.2.success then 1 else 0) + tail.2.1,
     (if p.2.success then 0 else 1) + tail.2.2)

/-- The human-readable document written to `build_report.txt`: header,
per-package sections, and the final `Summary: N successful, M failed`
line. -/
def text_report (results : List (String × BuildResult)) : List String :=
  let body := text_report_loop results
  ["Build Report\n", String.mk (List.replicate 50 '=') ++ "\n\n"] ++ body.1 ++
    ["Summary: " ++ toString body.2.1 ++ " successful, " ++
      toString body.2.2 ++ " failed\n"]

/-! ## Specification predicates for the resolver proofs -/

/-- A list is topologically sorted when every element placed at some
position has all of its resolvable dependencies strictly earlier. -/
def TopoSorted (pkgs : Registry) (l : List String) : Prop :=
  ∀ l1 a l2, l = l1 ++ a :: l2 → ∀ b, depEdge pkgs a b → b ∈ l1

/-- The in-progress stack is a dependency chain: each entry is a declared,
resolvable dependency of the entry below it (its caller). -/
def stackOk (pkgs : Registry) (l : List String) : Prop :=
  List.Chain' (fun a b => depEdge pkgs b a) l

/-- The invariant maintained by `visit` over the traversal state. -/
structure Inv (pkgs : Registry) (s : RSt) : Prop where
  temp_nodup : s.temp.Nodup
  temp_keys : ∀ x ∈ s.temp, x ∈ keys pkgs
  vis_keys : ∀ x ∈ s.visited, x ∈ keys pkgs
  res_vis : ∀ x, x ∈ s.result ↔ x ∈ s.visited
  res_nodup : s.result.Nodup
  disj : ∀ x ∈ s.temp, x ∉ s.visited
  topo : TopoSorted pkgs s.result
  warnOk : ∀ x ∈ s.visited, ∀ d ∈ (getConfig pkgs x).dependencies,
      findDepUrl pkgs d = none → depWarnMsg d x ∈ s.warns

/-- Number of registry keys not yet on the in-progress stack: the fuel
measure showing the recursion depth of `visit` is bounded. -/
def keysOut (pkgs : Registry) (temp : List String) : Nat :=
  ((keys pkgs).dedup.filter (fun k => decide (k ∉ temp))).length

/-! ## Concrete registries used as witnesses -/

/-- A two-package acyclic registry shaped like the `gflags` / `glog`
entries of `PACKS`. -/
def regChain : Registry :=
  [("https://github.com/AI-Infra-Team/gflags",
    { branch := some "master", cpp := some 17, build_type := some "Release",
      define := [.kv "BUILD_SHARED_LIBS" "OFF"] }),
   ("https://github.com/AI-Infra-Team/glog",
    { branch := some "v0.6.0", cpp := some 17, build_type := some "Release",
      dependencies := ["gflags"],
      define := [.kv "WITH_GFLAGS" "ON"] })]

/-- A registry with a two-package dependency cycle. -/
def regCyc : Registry :=
  [("https://github.com/AI-Infra-Team/alpha", { dependencies := ["beta"] }),
   ("https://github.com/AI-Infra-Team/beta", { dependencies := ["alpha"] })]

/-- A one-package registry whose package declares a dependency name that
matches no registry entry. -/
def regMissing : Registry :=
  [("https://github.com/AI-Infra-Team/delta", { dependencies := ["X"] })]

/-! ## Helper lemmas about lookups and edges -/

theorem getConfig_eq_default {pkgs : Registry} {url : String}
    (h : url ∉ keys pkgs) : getConfig pkgs url = {} := by
  unfold getConfig
  have hnone : pkgs.find? (fun p => p.1 == url) = none := by
    rw [List.find?_eq_none]
    intro p hp hbeq
    exact h (by simpa [keys, beq_iff_eq.mp hbeq] using List.mem_map_of_mem Prod.fst hp)
  rw [hnone]

theorem findDepUrl_mem {pkgs : Registry} {d u : String}
    (h : findDepUrl pkgs d = some u) : u ∈ keys pkgs :=
  List.mem_of_find?_eq_some h

theorem findDepUrl_name {pkgs : Registry} {d u : String}
    (h : findDepUrl pkgs d = some u) : get_package_name u = d := by
  unfold findDepUrl at h
  have h2 := List.find?_some h
  exact beq_iff_eq.mp h2

theorem findDepUrl_eq_none {pkgs : Registry} {d : String}
    (h : ∀ u ∈ keys pkgs, get_package_name u ≠ d) : findDepUrl pkgs d = none := by
  rw [findDepUrl, List.find?_eq_none]
  intro u hu hbeq
  exact h u hu (beq_iff_eq.mp hbeq)

theorem find_name_of_nodup {d B : String} :
    ∀ L : List String, (L.map get_package_name).Nodup → B ∈ L →
      get_package_name B = d →
      L.find? (fun u => get_package_name u == d) = some B := by
  intro L
  induction L with
  | nil => intro _ hB; cases hB
  | cons x t ih =>
    intro hnd hB hname
    rw [List.map_cons, List.nodup_cons] at hnd
    obtain ⟨hx, ht⟩ := hnd
    by_cases hxd : get_package_name x = d
    · have hBx : B = x := by
        rcases List.mem_cons.mp hB with hB | hB
        · exact hB
        · exfalso
          apply hx
          rw [hxd, ← hname]
          exact List.mem_map_of_mem get_package_name hB
      simp [List.find?, hxd, hBx]
    · have hBt : B ∈ t := by
        rcases List.mem_cons.mp hB with hB | hB
        · exact absurd (hB ▸ hname) hxd
        · exact hB
      have hfalse : (get_package_name x == d) = false := beq_eq_false_iff_ne.mpr hxd
      simp only [List.find?, hfalse]
      exact ih ht hBt hname

theorem findDepUrl_eq_of_nodup {pkgs : Registry} {d B : String}
    (hnd : ((keys pkgs).map get_package_name).Nodup) (hB : B ∈ keys pkgs)
    (hname : get_package_name B = d) : findDepUrl pkgs d = some B :=
  find_name_of_nodup (keys pkgs) hnd hB hname

theorem depEdge_mem {pkgs : Registry} {a b : String} (h : depEdge pkgs a b) :
    a ∈ keys pkgs ∧ b ∈ keys pkgs := by
  obtain ⟨d, hd, hfind⟩ := h
  refine ⟨?_, findDepUrl_mem hfind⟩
  by_contra ha
  rw [getConfig_eq_default ha] at hd
  cases hd

/-! ## Helper lemmas about the fuel measure -/

theorem length_filter_le_of_imp {α : Type} (p q : α → Bool)
    (h : ∀ a, p a = true → q a = true) :
    ∀ l : List α, (l.filter p).length ≤ (l.filter q).length := by
  intro l
  induction l with
  | nil => simp
  | cons x t ih =>
    cases hp : p x with
    | true =>
      rw [List.filter_cons_of_pos hp, List.filter_cons_of_pos (h x hp)]
      simp only [List.length_cons]
      exact Nat.succ_le_succ ih
    | false =>
      rw [List.filter_cons_of_neg (by simp [hp])]
      cases hq : q x with
      | true =>
        rw [List.filter_cons_of_pos hq]
        exact le_trans ih (by simp)
      | false =>
        rw [List.filter_cons_of_neg (by simp [hq])]
        exact ih

theorem length_filter_lt_of_imp {α : Type} (p q : α → Bool) (a : α)
    (himp : ∀ x, p x = true → q x = true) (hq : q a = true) (hp : p a = false) :
    ∀ l : List α, a ∈ l → (l.filter p).length < (l.filter q).length := by
  intro l
  induction l with
  | nil => intro h; cases h
  | cons x t ih =>
    intro hmem
    rcases List.mem_cons.mp hmem with hmem | hmem
    · subst hmem
      rw [List.filter_cons_of_neg (by simp [hp]), List.filter_cons_of_pos hq]
      simp only [List.length_cons]
      exact Nat.lt_succ_of_le (length_filter_le_of_imp p q himp t)
    · cases hpx : p x with
      | true =>
        rw [List.filter_cons_of_pos hpx, List.filter_cons_of_pos (himp x hpx)]
        simp only [List.length_cons]
        exact Nat.succ_lt_succ (ih hmem)
      | false =>
        rw [List.filter_cons_of_neg (by simp [hpx])]
        cases hqx : q x with
        | true =>
          rw [List.filter_cons_of_pos hqx]
          exact Nat.lt_succ_of_lt (ih hmem)
        | false =>
          rw [List.filter_cons_of_neg (by simp [hqx])]
          exact ih hmem

theorem keysOut_cons_lt {pkgs : Registry} {url : String} {temp : List String}
    (hurl : url ∈ keys pkgs) (hnot : url ∉ temp) :
    keysOut pkgs (url :: temp) < keysOut pkgs temp := by
  unfold keysOut
  apply length_filter_lt_of_imp _ _ url
  · intro x hx
    simp only [decide_eq_true_iff] at hx ⊢
    intro hmem
    exact hx (List.mem_cons_of_mem url hmem)
  · simpa using hnot
  · simp
  · exact List.mem_dedup.mpr hurl

/-! ## Helper lemmas about the in-progress stack and cycles -/

theorem transGen_of_stack {pkgs : Registry} :
    ∀ (l : List String) (a b : String), stackOk pkgs (a :: l) → b ∈ l →
      Relation.TransGen (depEdge pkgs) b a := by
  intro l
  induction l with
  | nil => intro a b _ hb; cases hb
  | cons c t ih =>
    intro a b hchain hb
    rcases List.chain'_cons.mp hchain with ⟨hca, hrest⟩
    rcases List.mem_cons.mp hb with hb | hb
    · exact hb ▸ Relation.TransGen.single hca
    · exact Relation.TransGen.tail (ih c b hrest hb) hca

theorem acyclic_of_rank {pkgs : Registry} (f : String → Nat)
    (h : ∀ x y, depEdge pkgs x y → f y < f x) :
    ∀ v, ¬ Relation.TransGen (depEdge pkgs) v v := by
  have key : ∀ x y, Relation.TransGen (depEdge pkgs) x y → f y < f x := by
    intro x y ht
    induction ht with
    | single hxy => exact h _ _ hxy
    | tail _ hbc ih => exact lt_trans (h _ _ hbc) ih
  intro v hv
  exact absurd (key v v hv) (lt_irrefl _)

/-! ## Helper lemmas about topological sortedness -/

theorem topoSorted_nil {pkgs : Registry} : TopoSorted pkgs [] := by
  intro l1 a l2 h
  have hlen := congrArg List.length h
  simp only [List.length_nil, List.length_append, List.length_cons] at hlen
  omega

theorem topoSorted_append {pkgs : Registry} {l : List String} {a : String}
    (hl : TopoSorted pkgs l) (ha : ∀ b, depEdge pkgs a b → b ∈ l) :
    TopoSorted pkgs (l ++ [a]) := by
  intro l1 x l2 heq b hedge
  rcases List.append_eq_append_iff.mp heq with ⟨t, ht1, ht2⟩ | ⟨t, ht1, ht2⟩
  · -- l1 = l ++ t and [a] = t ++ x :: l2
    have := congrArg List.length ht2
    simp at this
    have ht : t = [] := List.eq_nil_of_length_eq_zero (by omega)
    subst ht
    simp at ht2
    rcases ht2 with ⟨hxa, hl2⟩
    subst hxa
    simp at ht1
    subst ht1
    exact ha b hedge
  · -- l = l1 ++ t and x :: l2 = t ++ [a]
    cases t with
    | nil =>
      simp at ht1 ht2
      rcases ht2 with ⟨hxa, hl2⟩
      subst hxa
      subst ht1
      simpa using ha b hedge
    | cons c t' =>
      rcases List.cons_eq_cons.mp ht2 with ⟨hxc, hl2⟩
      subst hxc
      exact hl l1 x t' ht1 b hedge

theorem topo_indexOf_lt {pkgs : Registry} {l : List String} {A B : String}
    (hnd : l.Nodup) (htopo : TopoSorted pkgs l) (hA : A ∈ l)
    (hE : depEdge pkgs A B) : l.indexOf B < l.indexOf A := by
  obtain ⟨l1, l2, hdecomp⟩ := List.append_of_mem hA
  subst hdecomp
  have hAnotl1 : A ∉ l1 := by
    intro hmem
    exact (List.disjoint_of_nodup_append hnd) hmem (List.mem_cons_self A l2)
  have hB : B ∈ l1 := htopo l1 A l2 rfl B hE
  calc (l1 ++ A :: l2).indexOf B = l1.indexOf B := List.indexOf_append_of_mem hB
    _ < l1.length := List.indexOf_lt_length.mpr hB
    _ ≤ (l1 ++ A :: l2).indexOf A := by
        rw [List.indexOf_append_of_not_mem hAnotl1]
        simp

/-! ## The main invariant lemmas for the resolver -/

theorem Inv.addWarns {pkgs : Registry} {s : RSt} (h : Inv pkgs s) (w : List String) :
    Inv pkgs { s with warns := s.warns ++ w } :=
  ⟨h.temp_nodup, h.temp_keys, h.vis_keys, h.res_vis, h.res_nodup, h.disj, h.topo,
   fun x hx d hd hnone => List.mem_append_left w (h.warnOk x hx d hd hnone)⟩

theorem visitDeps_spec (pkgs : Registry) (visitF : String → RSt → VRes)
    (T0 : List String) (url : String)
    (hF : ∀ du st, Inv pkgs st → st.temp = T0 → du ∈ keys pkgs →
        stackOk pkgs (du :: T0) →
        (visitF du st ≠ .noFuel) ∧
        (∀ s', visitF du st = .ok s' → Inv pkgs s' ∧ s'.temp = T0 ∧
            (∀ x ∈ st.visited, x ∈ s'.visited) ∧ du ∈ s'.visited ∧
            (∃ t, s'.result = st.result ++ t) ∧ (∃ w, s'.warns = st.warns ++ w)) ∧
        (∀ u, visitF du st = .cyc u → Relation.TransGen (depEdge pkgs) u u)) :
    ∀ (ds : List String) (st : RSt), Inv pkgs st → st.temp = T0 →
      (∀ d ∈ ds, ∀ du, findDepUrl pkgs d = some du → stackOk pkgs (du :: T0)) →
      (visitDeps pkgs visitF url ds st ≠ .noFuel) ∧
      (∀ s', visitDeps pkgs visitF url ds st = .ok s' →
          Inv pkgs s' ∧ s'.temp = T0 ∧
          (∀ x ∈ st.visited, x ∈ s'.visited) ∧
          (∀ d ∈ ds, ∀ du, findDepUrl pkgs d = some du → du ∈ s'.visited) ∧
          (∀ d ∈ ds, findDepUrl pkgs d = none → depWarnMsg d url ∈ s'.warns) ∧
          (∃ t, s'.result = st.result ++ t) ∧ (∃ w, s'.warns = st.warns ++ w)) ∧
      (∀ u, visitDeps pkgs visitF url ds st = .cyc u →
          Relation.TransGen (depEdge pkgs) u u) := by
  intro ds
  induction ds with
  | nil =>
    intro st hInv htemp _
    refine ⟨by simp [visitDeps], ?_, by simp [visitDeps]⟩
    intro s' hok
    simp only [visitDeps, VRes.ok.injEq] at hok
    subst hok
    exact ⟨hInv, htemp, fun x hx => hx, by simp, by simp, ⟨[], by simp⟩, ⟨[], by simp⟩⟩
  | cons d rest ih =>
    intro st hInv htemp hedge
    cases hfind : findDepUrl pkgs d with
    | some du =>
      obtain ⟨hnf1, hok1, hcyc1⟩ :=
        hF du st hInv htemp (findDepUrl_mem hfind)
          (hedge d (List.mem_cons_self d rest) du hfind)
      cases hv : visitF du st with
      | ok s1 =>
        obtain ⟨hInv1, htemp1, hmono1, hdu1, ⟨t1, hres1⟩, ⟨w1, hwarn1⟩⟩ := hok1 s1 hv
        obtain ⟨hnf2, hok2, hcyc2⟩ :=
          ih s1 hInv1 htemp1
            (fun d' hd' du' hf => hedge d' (List.mem_cons_of_mem d hd') du' hf)
        have heq : visitDeps pkgs visitF url (d :: rest) st =
            visitDeps pkgs visitF url rest s1 := by
          simp [visitDeps, hfind, hv]
        refine ⟨by rw [heq]; exact hnf2, ?_, by rw [heq]; exact hcyc2⟩
        intro s' hok'
        rw [heq] at hok'
        obtain ⟨hInv', htemp', hmono', hdep', hwarn', ⟨t2, hres2⟩, ⟨w2, hwarn2⟩⟩ :=
          hok2 s' hok'
        refine ⟨hInv', htemp', fun x hx => hmono' x (hmono1 x hx), ?_, ?_,
          ⟨t1 ++ t2, by rw [hres2, hres1, List.append_assoc]⟩,
          ⟨w1 ++ w2, by rw [hwarn2, hwarn1, List.append_assoc]⟩⟩
        · intro d' hd' du' hf
          rcases List.mem_cons.mp hd' with h | h
          · subst h
            rw [hfind] at hf
            injection hf with hfe
            subst hfe
            exact hmono' du hdu1
          · exact hdep' d' h du' hf
        · intro d' hd' hfnone
          rcases List.mem_cons.mp hd' with h | h
          · subst h
            rw [hfind] at hfnone
            cases hfnone
          · exact hwarn' d' h hfnone
      | cyc u =>
        have heq : visitDeps pkgs visitF url (d :: rest) st = .cyc u := by
          simp [visitDeps, hfind, hv]
        refine ⟨by rw [heq]; simp, ?_, ?_⟩
        · intro s' h'
          rw [heq] at h'
          cases h'
        · intro u' h'
          rw [heq] at h'
          injection h' with h''
          subst h''
          exact hcyc1 u hv
      | noFuel => exact absurd hv hnf1
    | none =>
      have hInv1 : Inv pkgs { st with warns := st.warns ++ [depWarnMsg d url] } :=
        hInv.addWarns _
      have heq : visitDeps pkgs visitF url (d :: rest) st =
          visitDeps pkgs visitF url rest
            { st with warns := st.warns ++ [depWarnMsg d url] } := by
        simp [visitDeps, hfind]
      obtain ⟨hnf2, hok2, hcyc2⟩ :=
        ih { st with warns := st.warns ++ [depWarnMsg d url] } hInv1 htemp
          (fun d' hd' du' hf => hedge d' (List.mem_cons_of_mem d hd') du' hf)
      refine ⟨by rw [heq]; exact hnf2, ?_, by rw [heq]; exact hcyc2⟩
      intro s' hok'
      rw [heq] at hok'
      obtain ⟨hInv', htemp', hmono', hdep', hwarn', ⟨t2, hres2⟩, ⟨w2, hwarn2⟩⟩ :=
        hok2 s' hok'
      refine ⟨hInv', htemp', fun x hx => hmono' x hx, ?_, ?_,
        ⟨t2, hres2⟩, ⟨[depWarnMsg d url] ++ w2, by rw [hwarn2]; simp⟩⟩
      · intro d' hd' du' hf
        rcases List.mem_cons.mp hd' with h | h
        · subst h
          rw [hfind] at hf
          cases hf
        · exact hdep' d' h du' hf
      · intro d' hd' hfnone
        rcases List.mem_cons.mp hd' with h | h
        · rw [hwarn2]
          apply List.mem_append_left
          rw [h]
          simp
        · exact hwarn' d' h hfnone

theorem visit_spec (pkgs : Registry) :
    ∀ (fuel : Nat) (url : String) (s : RSt), Inv pkgs s → url ∈ keys pkgs →
      stackOk pkgs (url :: s.temp) → keysOut pkgs s.temp < fuel →
      (visit pkgs fuel url s ≠ .noFuel) ∧
      (∀ s', visit pkgs fuel url s = .ok s' → Inv pkgs s' ∧ s'.temp = s.temp ∧
          (∀ x ∈ s.visited, x ∈ s'.visited) ∧ url ∈ s'.visited ∧
          (∃ t, s'.result = s.result ++ t) ∧ (∃ w, s'.warns = s.warns ++ w)) ∧
      (∀ u, visit pkgs fuel url s = .cyc u → Relation.TransGen (depEdge pkgs) u u) := by
  intro fuel
  induction fuel with
  | zero =>
    intro url s _ _ _ hbound
    exact absurd hbound (Nat.not_lt_zero _)
  | succ fuel ih =>
    intro url s hInv hurl hstack hbound
    by_cases htemp : url ∈ s.temp
    · have heq : visit pkgs (fuel + 1) url s = .cyc url := by
        simp [visit, htemp]
      refine ⟨by rw [heq]; simp, ?_, ?_⟩
      · intro s' h'
        rw [heq] at h'
        cases h'
      · intro u h'
        rw [heq] at h'
        injection h' with h''
        subst h''
        exact transGen_of_stack s.temp url url hstack htemp
    · by_cases hvis : url ∈ s.visited
      · have heq : visit pkgs (fuel + 1) url s = .ok s := by
          simp [visit, htemp, hvis]
        refine ⟨by rw [heq]; simp, ?_, ?_⟩
        · intro s' h'
          rw [heq] at h'
          injection h' with h''
          subst h''
          exact ⟨hInv, rfl, fun x hx => hx, hvis, ⟨[], by simp⟩, ⟨[], by simp⟩⟩
        · intro u h'
          rw [heq] at h'
          cases h'
      · have hInv1 : Inv pkgs { s with temp := url :: s.temp } := by
          refine ⟨List.nodup_cons.mpr ⟨htemp, hInv.temp_nodup⟩, ?_, hInv.vis_keys,
            hInv.res_vis, hInv.res_nodup, ?_, hInv.topo, hInv.warnOk⟩
          · intro x hx
            rcases List.mem_cons.mp hx with h | h
            · exact h ▸ hurl
            · exact hInv.temp_keys x h
          · intro x hx
            rcases List.mem_cons.mp hx with h | h
            · exact h ▸ hvis
            · exact hInv.disj x h
        have hF : ∀ du st, Inv pkgs st → st.temp = url :: s.temp → du ∈ keys pkgs →
            stackOk pkgs (du :: (url :: s.temp)) →
            ((fun u st => visit pkgs fuel u st) du st ≠ .noFuel) ∧
            (∀ s', (fun u st => visit pkgs fuel u st) du st = .ok s' →
                Inv pkgs s' ∧ s'.temp = url :: s.temp ∧
                (∀ x ∈ st.visited, x ∈ s'.visited) ∧ du ∈ s'.visited ∧
                (∃ t, s'.result = st.result ++ t) ∧ (∃ w, s'.warns = st.warns ++ w)) ∧
            (∀ u, (fun u st => visit pkgs fuel u st) du st = .cyc u →
                Relation.TransGen (depEdge pkgs) u u) := by
          intro du st hI ht hd hs
          have hb : keysOut pkgs st.temp < fuel := by
            have h1 : keysOut pkgs (url :: s.temp) < keysOut pkgs s.temp :=
              keysOut_cons_lt hurl htemp
            rw [ht]
            omega
          have hs' : stackOk pkgs (du :: st.temp) := by rw [ht]; exact hs
          obtain ⟨hnf, hok, hcyc⟩ := ih du st hI hd hs' hb
          refine ⟨hnf, ?_, hcyc⟩
          intro s' h'
          obtain ⟨a, b, c, d, e, f⟩ := hok s' h'
          exact ⟨a, ht ▸ b, c, d, e, f⟩
        have hedge : ∀ d ∈ (getConfig pkgs url).dependencies, ∀ du,
            findDepUrl pkgs d = some du →
            stackOk pkgs (du :: (url :: s.temp)) := by
          intro d hd du hfind
          exact List.chain'_cons.mpr ⟨⟨d, hd, hfind⟩, hstack⟩
        obtain ⟨hnf, hok, hcyc⟩ :=
          visitDeps_spec pkgs (fun u st => visit pkgs fuel u st) (url :: s.temp) url hF
            (getConfig pkgs url).dependencies { s with temp := url :: s.temp }
            hInv1 rfl hedge
        cases hv : visitDeps pkgs (fun u st => visit pkgs fuel u st) url
            (getConfig pkgs url).dependencies { s with temp := url :: s.temp } with
        | ok s2 =>
          obtain ⟨hInv2, htemp2, hmono2, hdep2, hwarn2, ⟨t2, hres2⟩, ⟨w2, hwarns2⟩⟩ :=
            hok s2 hv
          have heq : visit pkgs (fuel + 1) url s =
              .ok { s2 with
                    temp := s2.temp.erase url
                    visited := url :: s2.visited
                    result := s2.result ++ [url] } := by
            simp [visit, htemp, hvis, hv]
          have hs3temp : s2.temp.erase url = s.temp := by
            rw [htemp2, List.erase_cons_head]
          have hurlnotvis2 : url ∉ s2.visited :=
            hInv2.disj url (htemp2 ▸ List.mem_cons_self url s.temp)
          have hurlnotres2 : url ∉ s2.result :=
            fun h => hurlnotvis2 ((hInv2.res_vis url).mp h)
          refine ⟨by rw [heq]; simp, ?_, ?_⟩
          · intro s' h'
            rw [heq] at h'
            injection h' with h''
            subst h''
            refine ⟨?_, hs3temp, ?_, List.mem_cons_self url s2.visited,
              ⟨t2 ++ [url], by simp [hres2, List.append_assoc]⟩,
              ⟨w2, hwarns2⟩⟩
            · refine ⟨by rw [hs3temp]; exact hInv.temp_nodup,
                fun x hx => hInv.temp_keys x (by rwa [hs3temp] at hx), ?_, ?_, ?_, ?_, ?_, ?_⟩
              · intro x hx
                rcases List.mem_cons.mp hx with h | h
                · exact h ▸ hurl
                · exact hInv2.vis_keys x h
              · intro x
                simp only [List.mem_append, List.mem_singleton, List.mem_cons]
                rw [hInv2.res_vis x]
                tauto
              · rw [List.nodup_append]
                exact ⟨hInv2.res_nodup, List.nodup_singleton url, by
                  intro x hx hx'
                  simp only [List.mem_singleton] at hx'
                  subst hx'
                  exact hurlnotres2 hx⟩
              · intro x hx
                rw [hs3temp] at hx
                intro hmem
                rcases List.mem_cons.mp hmem with h | h
                · exact htemp (h ▸ hx)
                · exact hInv2.disj x (htemp2 ▸ List.mem_cons_of_mem url hx) h
              · refine topoSorted_append hInv2.topo ?_
                intro b hb
                obtain ⟨d, hd, hfind⟩ := hb
                exact (hInv2.res_vis b).mpr (hdep2 d hd b hfind)
              · intro x hx d hd hfnone
                rcases List.mem_cons.mp hx with h | h
                · subst h
                  exact hwarn2 d hd hfnone
                · exact hInv2.warnOk x h d hd hfnone
            · intro x hx
              exact List.mem_cons_of_mem url (hmono2 x hx)
          · intro u h'
            rw [heq] at h'
            cases h'
        | cyc u =>
          have heq : visit pkgs (fuel + 1) url s = .cyc u := by
            simp [visit, htemp, hvis, hv]
          refine ⟨by rw [heq]; simp, ?_, ?_⟩
          · intro s' h'
            rw [heq] at h'
            cases h'
          · intro u' h'
            rw [heq] at h'
            injection h' with h''
            subst h''
            exact hcyc u hv
        | noFuel => exact absurd hv hnf

theorem visitAll_spec (pkgs : Registry) (fuel : Nat) :
    ∀ (urls : List String) (s : RSt), Inv pkgs s → s.temp = [] →
      (∀ u ∈ urls, u ∈ keys pkgs) → keysOut pkgs [] < fuel →
      (visitAll pkgs fuel urls s ≠ .noFuel) ∧
      (∀ s', visitAll pkgs fuel urls s = .ok s' → Inv pkgs s' ∧ s'.temp = [] ∧
          (∀ x ∈ s.visited, x ∈ s'.visited) ∧ (∀ u ∈ urls, u ∈ s'.visited) ∧
          (∃ t, s'.result = s.result ++ t) ∧ (∃ w, s'.warns = s.warns ++ w)) ∧
      (∀ u, visitAll pkgs fuel urls s = .cyc u →
          Relation.TransGen (depEdge pkgs) u u) := by
  intro urls
  induction urls with
  | nil =>
    intro s hInv htemp _ _
    refine ⟨by simp [visitAll], ?_, by simp [visitAll]⟩
    intro s' h'
    simp only [visitAll, VRes.ok.injEq] at h'
    subst h'
    exact ⟨hInv, htemp, fun x hx => hx, by simp, ⟨[], by simp⟩, ⟨[], by simp⟩⟩
  | cons url rest ih =>
    intro s hInv htemp hkeys hbound
    have hstack : stackOk pkgs (url :: s.temp) := by
      rw [htemp]
      exact List.chain'_singleton url
    have hb : keysOut pkgs s.temp < fuel := by rw [htemp]; exact hbound
    obtain ⟨hnf, hok, hcyc⟩ :=
      visit_spec pkgs fuel url s hInv (hkeys url (List.mem_cons_self url rest)) hstack hb
    cases hv : visit pkgs fuel url s with
    | ok s1 =>
      obtain ⟨hInv1, htemp1, hmono1, hurl1, ⟨t1, hres1⟩, ⟨w1, hwarn1⟩⟩ := hok s1 hv
      obtain ⟨hnf2, hok2, hcyc2⟩ :=
        ih s1 hInv1 (htemp1.trans htemp)
          (fun u hu => hkeys u (List.mem_cons_of_mem url hu)) hbound
      have heq : visitAll pkgs fuel (url :: rest) s = visitAll pkgs fuel rest s1 := by
        simp [visitAll, hv]
      refine ⟨by rw [heq]; exact hnf2, ?_, by rw [heq]; exact hcyc2⟩
      intro s' h'
      rw [heq] at h'
      obtain ⟨hInv', htemp', hmono', hall', ⟨t2, hres2⟩, ⟨w2, hwarn2⟩⟩ := hok2 s' h'
      refine ⟨hInv', htemp', fun x hx => hmono' x (hmono1 x hx), ?_,
        ⟨t1 ++ t2, by rw [hres2, hres1, List.append_assoc]⟩,
        ⟨w1 ++ w2, by rw [hwarn2, hwarn1, List.append_assoc]⟩⟩
      intro u hu
      rcases List.mem_cons.mp hu with h | h
      · exact h ▸ hmono' url hurl1
      · exact hall' u h
    | cyc u =>
      have heq : visitAll pkgs fuel (url :: rest) s = .cyc u := by
        simp [visitAll, hv]
      refine ⟨by rw [heq]; simp, ?_, ?_⟩
      · intro s' h'
        rw [heq] at h'
        cases h'
      · intro u' h'
        rw [heq] at h'
        injection h' with h''
        subst h''
        exact hcyc u hv
    | noFuel => exact absurd hv hnf

theorem resolveRes_spec (pkgs : Registry) :
    (resolveRes pkgs ≠ .noFuel) ∧
    (∀ s, resolveRes pkgs = .ok s → Inv pkgs s ∧ (∀ u ∈ keys pkgs, u ∈ s.visited)) ∧
    (∀ u, resolveRes pkgs = .cyc u → Relation.TransGen (depEdge pkgs) u u) := by
  have hInv0 : Inv pkgs ⟨[], [], [], []⟩ :=
    ⟨List.nodup_nil, by simp, by simp, by simp, List.nodup_nil, by simp,
     topoSorted_nil, by simp⟩
  have hbound : keysOut pkgs [] < (keys pkgs).length + 1 := by
    unfold keysOut
    have h1 := List.length_filter_le (fun k => decide (k ∉ ([] : List String)))
      (keys pkgs).dedup
    have h2 : (keys pkgs).dedup.length ≤ (keys pkgs).length :=
      List.Sublist.length_le (List.dedup_sublist _)
    omega
  obtain ⟨hnf, hok, hcyc⟩ :=
    visitAll_spec pkgs ((keys pkgs).length + 1) (keys pkgs) ⟨[], [], [], []⟩
      hInv0 rfl (fun u hu => hu) hbound
  refine ⟨hnf, ?_, hcyc⟩
  intro s hs
  obtain ⟨hInv, _, _, hall, _, _⟩ := hok s hs
  exact ⟨hInv, hall⟩

/-- The fuel chosen by `resolve_dependencies` never runs out, so the
fuel-exhaustion branch of the embedding is unreachable. -/
theorem resolveRes_ne_noFuel (pkgs : Registry) : resolveRes pkgs ≠ .noFuel :=
  (resolveRes_spec pkgs).1

theorem resolveRes_ok_acyclic {pkgs : Registry} {s : RSt}
    (h : resolveRes pkgs = .ok s) :
    ∀ v, ¬ Relation.TransGen (depEdge pkgs) v v := by
  obtain ⟨hInv, hall⟩ := (resolveRes_spec pkgs).2.1 s h
  apply acyclic_of_rank (fun v => s.result.indexOf v)
  intro x y hxy
  obtain ⟨hx, _⟩ := depEdge_mem hxy
  have hxr : x ∈ s.result := (hInv.res_vis x).mpr (hall x hx)
  exact topo_indexOf_lt hInv.res_nodup hInv.topo hxr hxy

/-! ## Claim theorems for the resolver -/

/-- **C1.** For every acyclic registry (with the registry invariant that
derived names are unique), `resolve_dependencies` returns an ordered list
such that for every dependency edge where package `A` declares a
dependency name matching the derived name of registry entry `B`, the index
of `B` in the returned list strictly precedes the index of `A`. -/
theorem resolve_topological_order (pkgs : Registry)
    (hnames : ((keys pkgs).map get_package_name).Nodup)
    (hacyc : ∀ v, ¬ Relation.TransGen (depEdge pkgs) v v) :
    ∃ order warns, resolve_dependencies pkgs = .ok (order, warns) ∧
      ∀ A ∈ keys pkgs, ∀ d ∈ (getConfig pkgs A).dependencies,
        ∀ B ∈ keys pkgs, get_package_name B = d →
          order.indexOf B < order.indexOf A := by
  cases hres : resolveRes pkgs with
  | ok s =>
    obtain ⟨hInv, hall⟩ := (resolveRes_spec pkgs).2.1 s hres
    refine ⟨s.result, s.warns, by simp [resolve_dependencies, hres], ?_⟩
    intro A hA d hd B hB hname
    have hfind : findDepUrl pkgs d = some B := findDepUrl_eq_of_nodup hnames hB hname
    have hAr : A ∈ s.result := (hInv.res_vis A).mpr (hall A hA)
    exact topo_indexOf_lt hInv.res_nodup hInv.topo hAr ⟨d, hd, hfind⟩
  | cyc u => exact absurd ((resolveRes_spec pkgs).2.2 u hres) (hacyc u)
  | noFuel => exact absurd hres (resolveRes_spec pkgs).1

/-- Witness for **C1** on the concrete two-package chain registry. -/
theorem resolve_topological_order_witness :
    ∃ order warns, resolve_dependencies regChain = .ok (order, warns) ∧
      ∀ A ∈ keys regChain, ∀ d ∈ (getConfig regChain A).dependencies,
        ∀ B ∈ keys regChain, get_package_name B = d →
          order.indexOf B < order.indexOf A := by
  apply resolve_topological_order regChain (by decide)
  apply acyclic_of_rank
    (fun v => if v == "https://github.com/AI-Infra-Team/glog" then 1 else 0)
  intro x y h
  obtain ⟨hx, hy⟩ := depEdge_mem h
  simp only [keys, regChain, List.map_cons, List.map_nil, List.mem_cons,
    List.not_mem_nil, or_false] at hx hy
  rcases hx with hx | hx <;> rcases hy with hy | hy <;> subst hx <;> subst hy <;>
    first
      | exact absurd h (by decide)
      | decide

/-- **C10.** Whenever `resolve_dependencies` returns normally, the
returned list is a permutation of the registry keys: every registered URL
appears exactly once and no other URL appears. -/
theorem resolve_permutation (pkgs : Registry) (hkeys : (keys pkgs).Nodup) :
    ∀ order warns, resolve_dependencies pkgs = .ok (order, warns) →
      List.Perm order (keys pkgs) := by
  intro order warns h
  cases hres : resolveRes pkgs with
  | ok s =>
    obtain ⟨hInv, hall⟩ := (resolveRes_spec pkgs).2.1 s hres
    simp only [resolve_dependencies, hres, Except.ok.injEq, Prod.mk.injEq] at h
    obtain ⟨hord, _⟩ := h
    subst hord
    refine (List.perm_ext_iff_of_nodup hInv.res_nodup hkeys).mpr ?_
    intro a
    exact ⟨fun ha => hInv.vis_keys a ((hInv.res_vis a).mp ha),
      fun ha => (hInv.res_vis a).mpr (hall a ha)⟩
  | cyc u => simp [resolve_dependencies, hres] at h
  | noFuel => simp [resolve_dependencies, hres] at h

/-- Witness for **C10** on the concrete two-package chain registry. -/
theorem resolve_permutation_witness :
    List.Perm
      ["https://github.com/AI-Infra-Team/gflags",
       "https://github.com/AI-Infra-Team/glog"]
      (keys regChain) :=
  resolve_permutation regChain (by decide)
    ["https://github.com/AI-Infra-Team/gflags",
     "https://github.com/AI-Infra-Team/glog"] [] rfl

/-- **C3.** For every registry whose dependency graph has a cycle among
resolvable names, `resolve_dependencies` raises the `ValueError` naming a
package involved in the cycle and returns no order at all; the embedding
returns only the error value, mirroring that the Python function raises
before mutating any state visible to the caller. -/
theorem resolve_cycle_error (pkgs : Registry)
    (hcyc : ∃ v, Relation.TransGen (depEdge pkgs) v v) :
    ∃ u, resolve_dependencies pkgs = .error (cycleMsg u) ∧
      Relation.TransGen (depEdge pkgs) u u := by
  obtain ⟨v, hv⟩ := hcyc
  cases hres : resolveRes pkgs with
  | ok s => exact absurd hv (resolveRes_ok_acyclic hres v)
  | cyc u =>
    exact ⟨u, by simp [resolve_dependencies, hres],
      (resolveRes_spec pkgs).2.2 u hres⟩
  | noFuel => exact absurd hres (resolveRes_spec pkgs).1

/-- Witness for **C3** on the concrete two-package cyclic registry. -/
theorem resolve_cycle_error_witness :
    ∃ u, resolve_dependencies regCyc = .error (cycleMsg u) ∧
      Relation.TransGen (depEdge regCyc) u u :=
  resolve_cycle_error regCyc
    ⟨"https://github.com/AI-Infra-Team/alpha",
     Relation.TransGen.head
       (show depEdge regCyc "https://github.com/AI-Infra-Team/alpha"
          "https://github.com/AI-Infra-Team/beta" by decide)
       (Relation.TransGen.single
         (show depEdge regCyc "https://github.com/AI-Infra-Team/beta"
            "https://github.com/AI-Infra-Team/alpha" by decide))⟩

/-- **C7.** A package declaring a dependency name that matches no registry
entry is still visited and appears in the returned order, with the
non-fatal warning logged; the missing name aborts neither resolution nor
that package. -/
theorem resolve_unresolved_dependency (pkgs : Registry) (p d : String)
    (hacyc : ∀ v, ¬ Relation.TransGen (depEdge pkgs) v v)
    (hp : p ∈ keys pkgs) (hd : d ∈ (getConfig pkgs p).dependencies)
    (hnone : ∀ u ∈ keys pkgs, get_package_name u ≠ d) :
    ∃ order warns, resolve_dependencies pkgs = .ok (order, warns) ∧
      p ∈ order ∧ depWarnMsg d p ∈ warns := by
  cases hres : resolveRes pkgs with
  | ok s =>
    obtain ⟨hInv, hall⟩ := (resolveRes_spec pkgs).2.1 s hres
    exact ⟨s.result, s.warns, by simp [resolve_dependencies, hres],
      (hInv.res_vis p).mpr (hall p hp),
      hInv.warnOk p (hall p hp) d hd (findDepUrl_eq_none hnone)⟩
  | cyc u => exact absurd ((resolveRes_spec pkgs).2.2 u hres) (hacyc u)
  | noFuel => exact absurd hres (resolveRes_spec pkgs).1

/-- Witness for **C7** on the concrete registry with a missing dependency
name. -/
theorem resolve_unresolved_dependency_witness :
    ∃ order warns, resolve_dependencies regMissing = .ok (order, warns) ∧
      "https://github.com/AI-Infra-Team/delta" ∈ order ∧
      depWarnMsg "X" "https://github.com/AI-Infra-Team/delta" ∈ warns := by
  apply resolve_unresolved_dependency regMissing _ "X" _ (by decide) (by decide)
    (by decide)
  apply acyclic_of_rank (fun _ => 0)
  intro x y h
  obtain ⟨hx, hy⟩ := depEdge_mem h
  simp only [keys, regMissing, List.map_cons, List.map_nil, List.mem_cons,
    List.not_mem_nil, or_false] at hx hy
  subst hx
  subst hy
  exact absurd h (by decide)

/-! ## Claim theorems for the orchestrator and exit status -/

/-- **C2.** Fail-fast: when the packages of a resolved order are processed
in sequence and `b` is the first to fail, the result dict holds exactly
one entry per package up to and including `b` (successes before `b`, a
failure entry for `b`), and no entry exists for any package after `b` in
the order — regardless of configs, so in particular regardless of whether
those later packages depend on `b`. -/
theorem build_fail_fast (outcome : String → Bool × String)
    (pre : List String) (b : String) (post : List String)
    (hpre : ∀ u ∈ pre, (outcome u).1 = true)
    (hb : (outcome b).1 = false)
    (hnames : ((pre ++ b :: post).map get_package_name).Nodup) :
    build_loop outcome (pre ++ b :: post) =
      pre.map (fun u =>
        (get_package_name u, (⟨u, true, (outcome u).2⟩ : BuildResult))) ++
        [(get_package_name b, ⟨b, false, (outcome b).2⟩)] ∧
    ∀ u ∈ post, ∀ e ∈ build_loop outcome (pre ++ b :: post),
      e.1 ≠ get_package_name u := by
  have hmain : ∀ pre1, (∀ u ∈ pre1, (outcome u).1 = true) →
      build_loop outcome (pre1 ++ b :: post) =
        pre1.map (fun u =>
          (get_package_name u, (⟨u, true, (outcome u).2⟩ : BuildResult))) ++
          [(get_package_name b, ⟨b, false, (outcome b).2⟩)] := by
    intro pre1
    induction pre1 with
    | nil =>
      intro _
      simp [build_loop, hb]
    | cons x t ih =>
      intro hpre1
      have hx := hpre1 x (List.mem_cons_self x t)
      have ih' := ih (fun u hu => hpre1 u (List.mem_cons_of_mem x hu))
      simp [build_loop, hx, ih']
  have heq := hmain pre hpre
  have hnames' : (pre.map get_package_name ++
      get_package_name b :: post.map get_package_name).Nodup := by
    simpa using hnames
  rw [List.nodup_append] at hnames'
  obtain ⟨_, hnd2, hdisj⟩ := hnames'
  rw [List.nodup_cons] at hnd2
  obtain ⟨hbnot, _⟩ := hnd2
  refine ⟨heq, ?_⟩
  intro u hu e he hne
  rw [heq, List.mem_append] at he
  rcases he with he | he
  · obtain ⟨v, hv, hve⟩ := List.mem_map.mp he
    have h1 : get_package_name v ∈ pre.map get_package_name :=
      List.mem_map_of_mem _ hv
    have h2 : get_package_name v = get_package_name u :=
      (congrArg Prod.fst hve).trans hne
    exact hdisj h1 (h2 ▸ List.mem_cons_of_mem _ (List.mem_map_of_mem _ hu))
  · simp only [List.mem_singleton] at he
    have h2 : get_package_name b = get_package_name u := by
      rw [← hne, he]
    exact hbnot (h2 ▸ List.mem_map_of_mem _ hu)

/-- Witness for **C2**: a three-package order whose middle package fails. -/
theorem build_fail_fast_witness :
    build_loop
        (fun u => (u == "https://github.com/AI-Infra-Team/gflags",
          if u == "https://github.com/AI-Infra-Team/gflags" then "Built successfully"
          else "Build failed"))
        (["https://github.com/AI-Infra-Team/gflags"] ++
          "https://github.com/AI-Infra-Team/glog" ::
          ["https://github.com/AI-Infra-Team/jsoncpp"]) =
      (["https://github.com/AI-Infra-Team/gflags"].map (fun u =>
        (get_package_name u,
          (⟨u, true,
            ((fun u => (u == "https://github.com/AI-Infra-Team/gflags",
              if u == "https://github.com/AI-Infra-Team/gflags" then "Built successfully"
              else "Build failed")) u).2⟩ : BuildResult)))) ++
        [(get_package_name "https://github.com/AI-Infra-Team/glog",
          ⟨"https://github.com/AI-Infra-Team/glog", false, "Build failed"⟩)] ∧
    ∀ u ∈ ["https://github.com/AI-Infra-Team/jsoncpp"],
      ∀ e ∈ build_loop
        (fun u => (u == "https://github.com/AI-Infra-Team/gflags",
          if u == "https://github.com/AI-Infra-Team/gflags" then "Built successfully"
          else "Build failed"))
        (["https://github.com/AI-Infra-Team/gflags"] ++
          "https://github.com/AI-Infra-Team/glog" ::
          ["https://github.com/AI-Infra-Team/jsoncpp"]),
      e.1 ≠ get_package_name u :=
  build_fail_fast _ _ _ _ (by decide) (by decide) (by decide)

/-- **C6 (code bug).** On a registry whose dependency resolution fails —
here the cyclic registry — `build_all_packages` catches the error and
returns the empty result dict; `main` then computes `successful == total`
as `0 == 0` and the run exits with status `0`, although the registry is
non-empty and none of its packages was attempted.  This contradicts the
documented requirement that a run in which packages were skipped
terminates with a non-zero status. -/
theorem main_exit_zero_despite_skips :
    (∃ u, resolve_dependencies regCyc = .error (cycleMsg u)) ∧
    build_all_packages regCyc (fun _ => (true, "Built successfully")) = [] ∧
    keys regCyc ≠ [] ∧
    main_exit regCyc (fun _ => (true, "Built successfully")) = 0 :=
  ⟨⟨"https://github.com/AI-Infra-Team/alpha", rfl⟩, rfl, by decide, rfl⟩

/-! ## Claim theorems for the report generator -/

theorem text_report_loop_eq (results : List (String × BuildResult)) :
    text_report_loop results =
      (results.flatMap (fun p => report_entry_lines p.1 p.2),
       successCount results, failCount results) := by
  induction results with
  | nil => rfl
  | cons p rest ih =>
    simp only [text_report_loop, ih, successCount, failCount, List.flatMap_cons]
    cases hp : p.2.success <;> simp [List.filter_cons, hp, Nat.add_comm]

theorem success_fail_count (results : List (String × BuildResult)) :
    successCount results + failCount results = results.length := by
  induction results with
  | nil => rfl
  | cons p rest ih =>
    cases hp : p.2.success <;>
      simp [successCount, failCount, List.filter_cons, hp] at ih ⊢ <;> omega

/-- **C9.** The report preserves every `BuildResult` field verbatim: the
structured document has exactly one entry per attempted package, keyed by
name, holding its source identity, success flag and message in attempt
order; the human-readable document contains the per-package chunks in
order plus an aggregate line counting exactly the successes and failures
among the entries. -/
theorem report_round_trip (results : List (String × BuildResult)) :
    (json_report results).map Prod.fst = results.map Prod.fst ∧
    (∀ p ∈ results,
      (p.1, [("url", JVal.str p.2.url), ("success", JVal.bool p.2.success),
             ("message", JVal.str p.2.message)]) ∈ json_report results) ∧
    text_report results =
      ["Build Report\n", String.mk (List.replicate 50 '=') ++ "\n\n"] ++
        results.flatMap (fun p => report_entry_lines p.1 p.2) ++
        ["Summary: " ++ toString (successCount results) ++ " successful, " ++
          toString (failCount results) ++ " failed\n"] ∧
    successCount results + failCount results = results.length := by
  refine ⟨by simp [json_report], ?_, ?_, success_fail_count results⟩
  · intro p hp
    exact List.mem_map.mpr ⟨p, hp, rfl⟩
  · simp [text_report, text_report_loop_eq]

/-! ## Claim theorems for the environment propagator -/

theorem generate_cmake_args_list_eq (install_dir : String)
    (built_packages : List String) (env : OsEnv) (pkgconfig_exists : Bool)
    (config : Config) :
    generate_cmake_args_list install_dir built_packages env pkgconfig_exists
        config =
      (compilerArgs env ++ baseArgs install_dir config ++
        (if config.dependencies.isEmpty then stdArgs config
         else depSectionArgs install_dir built_packages config) ++
        defineArgs config ++ testingDefaultArgs config,
       env_after install_dir env pkgconfig_exists config) := by
  unfold generate_cmake_args_list compilerArgs baseArgs stdArgs depSectionArgs
    depFlagArgs depHintArgs defineArgs testingDefaultArgs env_after
  by_cases hdeps : config.dependencies.isEmpty <;>
    by_cases hx : pkgconfig_exists <;>
      by_cases hm : config.define.any mentionsBuildTesting <;>
        simp [hdeps, hx, hm, List.append_assoc]

theorem env_after_preserves_compilers (install_dir : String) (env : OsEnv)
    (pkgconfig_exists : Bool) (config : Config) :
    (env_after install_dir env pkgconfig_exists config).CC = env.CC ∧
    (env_after install_dir env pkgconfig_exists config).CXX = env.CXX := by
  unfold env_after
  by_cases h1 : config.dependencies.isEmpty
  · simp [h1]
  · by_cases h2 : pkgconfig_exists
    · by_cases h3 : strContains (env.PKG_CONFIG_PATH.getD "")
          (install_dir ++ "/lib/pkgconfig")
      · simp [h1, h2, h3]
      · by_cases h4 : (env.PKG_CONFIG_PATH.getD "").isEmpty
        · simp [h1, h2, h3, h4]
        · simp [h1, h2, h3, h4]
    · simp [h1, h2]

/-- **C4 (counterexample).** Two calls of `generate_cmake_args` with
identical config, BuiltSet and install prefix but different `CC`
environment values yield different argument strings; and a call can
rewrite the process environment (`PKG_CONFIG_PATH`).  So the computation
is not a pure function of the three claimed inputs alone, and it does
write state outside them. -/
theorem generate_cmake_args_not_pure :
    (generate_cmake_args "/output" [] { CC := some "/usr/bin/gcc-10" } false
        { dependencies := ["gflags"] }).1 ≠
      (generate_cmake_args "/output" [] {} false
        { dependencies := ["gflags"] }).1 ∧
    (generate_cmake_args "/output" [] {} true
        { dependencies := ["gflags"] }).2 ≠ ({} : OsEnv) :=
  ⟨by decide, by decide⟩

/-- **C4 (amended).** `generate_cmake_args` is a pure function of the
config, the BuiltSet snapshot, the install prefix, the `CC`/`CXX`
environment entries and the pkg-config directory existence check: the
argument string depends on none of the remaining context (in particular
not on the current `PKG_CONFIG_PATH` value or on the filesystem check),
and the only process-wide state the call writes is the `PKG_CONFIG_PATH`
entry — `CC` and `CXX` pass through unchanged. -/
theorem generate_cmake_args_pure (install_dir : String)
    (built_packages : List String) (config : Config)
    (e1 e2 : OsEnv) (x1 x2 : Bool)
    (hcc : e1.CC = e2.CC) (hcxx : e1.CXX = e2.CXX) :
    (generate_cmake_args install_dir built_packages e1 x1 config).1 =
      (generate_cmake_args install_dir built_packages e2 x2 config).1 ∧
    (generate_cmake_args install_dir built_packages e1 x1 config).2.CC =
      e1.CC ∧
    (generate_cmake_args install_dir built_packages e1 x1 config).2.CXX =
      e1.CXX := by
  unfold generate_cmake_args
  rw [generate_cmake_args_list_eq, generate_cmake_args_list_eq]
  refine ⟨?_, (env_after_preserves_compilers _ _ _ _).1,
    (env_after_preserves_compilers _ _ _ _).2⟩
  simp [compilerArgs, hcc, hcxx]

/-- Witness for the amended **C4** at concrete inputs. -/
theorem generate_cmake_args_pure_witness :
    (generate_cmake_args "/output" ["gflags"]
        { CC := some "/usr/bin/gcc-10", PKG_CONFIG_PATH := some "/old" } true
        { cpp := some 17, dependencies := ["gflags"] }).1 =
      (generate_cmake_args "/output" ["gflags"]
        { CC := some "/usr/bin/gcc-10" } false
        { cpp := some 17, dependencies := ["gflags"] }).1 ∧
    (generate_cmake_args "/output" ["gflags"]
        { CC := some "/usr/bin/gcc-10", PKG_CONFIG_PATH := some "/old" } true
        { cpp := some 17, dependencies := ["gflags"] }).2.CC =
      ({ CC := some "/usr/bin/gcc-10", PKG_CONFIG_PATH := some "/old" } : OsEnv).CC ∧
    (generate_cmake_args "/output" ["gflags"]
        { CC := some "/usr/bin/gcc-10", PKG_CONFIG_PATH := some "/old" } true
        { cpp := some 17, dependencies := ["gflags"] }).2.CXX =
      ({ CC := some "/usr/bin/gcc-10", PKG_CONFIG_PATH := some "/old" } : OsEnv).CXX :=
  generate_cmake_args_pure "/output" ["gflags"]
    { cpp := some 17, dependencies := ["gflags"] }
    { CC := some "/usr/bin/gcc-10", PKG_CONFIG_PATH := some "/old" }
    { CC := some "/usr/bin/gcc-10" } true false rfl rfl

/-- **C5.** For a config with a non-empty dependency list, the argument
list contains, between the search-path flags and the declared defines,
exactly four discovery-hint defines for each declared dependency present
in the built set — `_DIR` and `_ROOT` under the exact-case and
lower-cased name, each pointing at the install prefix — and no hint for
any declared dependency absent from the built set. -/
theorem generate_cmake_args_dep_hints (install_dir : String)
    (built_packages : List String) (env : OsEnv) (x : Bool) (config : Config)
    (hdeps : config.dependencies ≠ []) :
    (generate_cmake_args_list install_dir built_packages env x config).1 =
      compilerArgs env ++ baseArgs install_dir config ++
        (depFlagArgs install_dir config ++
          config.dependencies.flatMap (fun dep_name =>
            if dep_name ∈ built_packages then
              ["-D" ++ dep_name ++ "_DIR=" ++ install_dir,
               "-D" ++ dep_name ++ "_ROOT=" ++ install_dir,
               "-D" ++ py_lower dep_name ++ "_DIR=" ++ install_dir,
               "-D" ++ py_lower dep_name ++ "_ROOT=" ++ install_dir]
            else [])) ++
        defineArgs config ++ testingDefaultArgs config := by
  rw [generate_cmake_args_list_eq]
  have hie : config.dependencies.isEmpty = false := by
    cases h : config.dependencies with
    | nil => exact absurd h hdeps
    | cons a t => rfl
  simp [hie, depSectionArgs]
  rfl

/-- Witness for **C5**: one built and one unbuilt declared dependency. -/
theorem generate_cmake_args_dep_hints_witness :
    (generate_cmake_args_list "/output" ["gflags"] {} false
        { cpp := some 17, dependencies := ["gflags", "rdma-core"] }).1 =
      compilerArgs {} ++
        baseArgs "/output" { cpp := some 17, dependencies := ["gflags", "rdma-core"] } ++
        (depFlagArgs "/output" { cpp := some 17, dependencies := ["gflags", "rdma-core"] } ++
          (["gflags", "rdma-core"] : List String).flatMap (fun dep_name =>
            if dep_name ∈ (["gflags"] : List String) then
              ["-D" ++ dep_name ++ "_DIR=" ++ "/output",
               "-D" ++ dep_name ++ "_ROOT=" ++ "/output",
               "-D" ++ py_lower dep_name ++ "_DIR=" ++ "/output",
               "-D" ++ py_lower dep_name ++ "_ROOT=" ++ "/output"]
            else [])) ++
        defineArgs { cpp := some 17, dependencies := ["gflags", "rdma-core"] } ++
        testingDefaultArgs { cpp := some 17, dependencies := ["gflags", "rdma-core"] } :=
  generate_cmake_args_dep_hints "/output" ["gflags"] {} false
    { cpp := some 17, dependencies := ["gflags", "rdma-core"] } (by decide)

/-- **C8.** The testing-disabling define `-DBUILD_TESTING=OFF` is appended
after the declared defines exactly when no declared define mentions
`BUILD_TESTING` (in its Python `str(...)` rendering); when some declared
define mentions it, nothing extra is appended. -/
theorem generate_cmake_args_testing_default (install_dir : String)
    (built_packages : List String) (env : OsEnv) (x : Bool) (config : Config) :
    (generate_cmake_args_list install_dir built_packages env x config).1 =
      (compilerArgs env ++ baseArgs install_dir config ++
        (if config.dependencies.isEmpty then stdArgs config
         else depSectionArgs install_dir built_packages config) ++
        defineArgs config) ++
        (if config.define.any mentionsBuildTesting then []
         else ["-DBUILD_TESTING=OFF"]) := by
  rw [generate_cmake_args_list_eq]
  simp [testingDefaultArgs, List.append_assoc]

end Pack
